import Mathlib

/-!
# vulnsock: message store, dispatch hub and sessions

A shallow embedding of `main.go`: the `messages` table with the three
statements run against it (insert, prune, history query), the search
statement built by `handleSearch`, the registry `clients`, the fan-out loop
of `handleMessages`, and the read loop of `handleWebSocket`.

Conventions.
* The `messages` table is a list of rows kept in rowid order, together with
  the `AUTOINCREMENT` counter of the table.
* Every `db.Exec` / `db.Query` / `WriteJSON` call can fail; its outcome is an
  input of the model.
* The registry `clients` is an association list from connections to display
  names; its list order stands for the iteration order of the Go map.
* Every `WriteJSON` and `Close` performed by the hub is recorded in a log
  carried by the hub state.
-/

namespace Vulnsock

/-! ## Data model -/

/-- The `Message` struct of `main.go` (`Typ` is the field `Type`). -/
structure Message where
  Typ : String
  Username : String
  Content : String
  Time : String
  Channel : String
  deriving DecidableEq, Repr

/-- One row of the `messages` table: the `id` column and the five text
columns (`created_at` is read by no statement). -/
structure Row where
  id : Nat
  type : String
  username : String
  content : String
  time : String
  channel : String
  deriving DecidableEq, Repr

/-- The `messages` table: its rows in rowid order and the largest rowid ever
handed out (the `sqlite_sequence` entry kept for `AUTOINCREMENT`). -/
structure Store where
  rows : List Row
  seq : Nat
  deriving DecidableEq, Repr

/-- The table right after `CREATE TABLE`. -/
def emptyStore : Store := ⟨[], 0⟩

/-- Rows are stored by strictly increasing `id` (`INTEGER PRIMARY KEY`). -/
def Store.WF (s : Store) : Prop := s.rows.Pairwise (fun a b => a.id < b.id)

instance (s : Store) : Decidable s.WF := by
  unfold Store.WF; infer_instance

/-- What `rows.Scan(&msg.Type, &msg.Username, &msg.Content, &msg.Time,
&msg.Channel)` stores into `msg`. -/
def Row.toMessage (r : Row) : Message :=
  ⟨r.type, r.username, r.content, r.time, r.channel⟩

/-- The default applied to an empty channel (lines 234-237 and 276-278). -/
def resolveChannel (channel : String) : String :=
  if channel = "" then "general" else channel

/-! ## SQL statements on `messages` -/

/-- The clause `ORDER BY id ASC`. -/
def orderByIdAsc (rows : List Row) : List Row :=
  rows.insertionSort (fun a b => a.id ≤ b.id)

/-- The clause `ORDER BY id DESC`. -/
def orderByIdDesc (rows : List Row) : List Row :=
  rows.insertionSort (fun a b => b.id ≤ a.id)

/-- Largest `id` present in the table (0 when empty). -/
def maxId (rows : List Row) : Nat := rows.foldl (fun acc r => max acc r.id) 0

/-- The rowid `AUTOINCREMENT` picks: one more than the largest rowid that
ever existed in the table. -/
def nextId (s : Store) : Nat := max s.seq (maxId s.rows) + 1

/-- The statement
`INSERT INTO messages (type, username, content, time, channel) VALUES (?, ?, ?, ?, ?)`
with the five bound values, when it succeeds. -/
def execInsert (type username content time channel : String) (s : Store) : Store :=
  { rows := s.rows ++ [⟨nextId s, type, username, content, time, channel⟩],
    seq := nextId s }

/-- The subquery `SELECT id FROM messages WHERE channel = ? ORDER BY id DESC LIMIT 100`. -/
def pruneKeepIds (channel : String) (s : Store) : List Nat :=
  ((orderByIdDesc (s.rows.filter (fun r => r.channel = channel))).take 100).map Row.id

/-- The statement
`DELETE FROM messages WHERE id NOT IN (SELECT id FROM messages WHERE channel = ? ORDER BY id DESC LIMIT 100)`
with the channel bound, when it succeeds: a row stays exactly when its `id`
is in the subquery's result. -/
def execPrune (channel : String) (s : Store) : Store :=
  { s with rows := s.rows.filter (fun r => r.id ∈ pruneKeepIds channel s) }

/-- The query `SELECT type, username, content, time, channel FROM messages ORDER BY id ASC LIMIT 100`. -/
def historyQuery (s : Store) : List Row := (orderByIdAsc s.rows).take 100

/-- The history replay of `handleWebSocket` (lines 144-158): the messages
passed to `conn.WriteJSON`, in order. When `db.Query` fails nothing is sent.
`rows.Scan` reads five `TEXT NOT NULL` columns into strings and does not
fail. -/
def historyReplay (queryOk : Bool) (s : Store) : List Message :=
  if queryOk then (historyQuery s).map Row.toMessage else []

/-- Number of stored rows of a channel. -/
def countRows (channel : String) (s : Store) : Nat :=
  (s.rows.filter (fun r => r.channel = channel)).length

/-- The rows that successful inserts of `msgs`, in order, add to a table whose
last rowid handed out is `k`: the ids `k + 1`, `k + 2`, ... and the resolved
channels. Used to state what the table holds. -/
def insertedRows : Nat → List Message → List Row
  | _, [] => []
  | k, m :: ms =>
    ⟨k + 1, m.Typ, m.Username, m.Content, m.Time, resolveChannel m.Channel⟩ ::
      insertedRows (k + 1) ms

/-! ## Search -/

/-- A statement handed to the database driver: its text and the values bound
to its `?` placeholders. -/
structure Statement where
  text : String
  args : List String
  deriving DecidableEq, Repr

/-- The statement of the hub's insert (line 240): fixed text, five bound values. -/
def insertStatement (msg : Message) (channel : String) : Statement :=
  ⟨"INSERT INTO messages (type, username, content, time, channel) VALUES (?, ?, ?, ?, ?)",
   [msg.Typ, msg.Username, msg.Content, msg.Time, channel]⟩

/-- The statement of `handleSearch` (lines 280-282): `fmt.Sprintf` splices
both values into the text, and `db.Query(sqlQuery)` binds nothing. -/
def searchStatement (channel query : String) : Statement :=
  ⟨"SELECT id, username, content, time FROM messages WHERE channel = '" ++ channel ++
     "' AND content LIKE '%" ++ query ++ "%' ORDER BY id DESC LIMIT 10", []⟩

/-- The part of `handleSearch` up to `db.Query` (lines 263-282): the HTTP
status of an early rejection, or the statement sent to the store. -/
def handleSearch (method q channelParam : String) : Except Nat Statement :=
  if method ≠ "GET" then .error 405
  else if q = "" then .error 400
  else
    .ok (searchStatement (resolveChannel channelParam) q)

/-- A connection handle (`*websocket.Conn`) with the two addresses it reports. -/
structure Conn where
  ptr : Nat
  remoteAddr : String
  localAddr : String
  deriving DecidableEq, Repr

/-- Outcome of the two statements of one hub iteration. -/
structure DbOutcome where
  insertOk : Bool
  pruneOk : Bool
  deriving DecidableEq, Repr

/-- The state the hub works on: the store, the registry `clients`, and the
log of the `WriteJSON` and `Close` calls the hub has made. -/
structure Hub where
  db : Store
  clients : List (Conn × String)
  sent : List (Conn × Message)
  closed : List Conn

/-- Keys of the registry. -/
def Hub.conns (h : Hub) : List Conn := h.clients.map Prod.fst

/-- The registry is a map: no connection is registered twice. -/
def Hub.WF (h : Hub) : Prop := h.conns.Nodup

/-- The statement `clients[conn] = username` (line 141). -/
def register (c : Conn) (username : String) (h : Hub) : Hub :=
  if h.clients.any (fun e => e.1 = c) then
    { h with clients := h.clients.map (fun e => if e.1 = c then (c, username) else e) }
  else { h with clients := h.clients ++ [(c, username)] }

/-- The statement `delete(clients, conn)` (lines 181 and 255). -/
def unregister (c : Conn) (h : Hub) : Hub :=
  { h with clients := h.clients.filter (fun e => e.1 ≠ c) }

/-- Lines 233-248 of `handleMessages`: a non-system message is inserted under
its resolved channel and then the prune statement is run for that channel;
an error of either statement is logged or dropped, and the loop goes on. -/
def persist (o : DbOutcome) (msg : Message) (s : Store) : Store :=
  if msg.Typ ≠ "system" then
    let channel := resolveChannel msg.Channel
    let s1 := if o.insertOk then
        execInsert msg.Typ msg.Username msg.Content msg.Time channel s else s
    if o.pruneOk then execPrune channel s1 else s1
  else s

/-- The loop `for client := range clients` (lines 251-257) over the keys
still to be produced: an entry removed before it is reached is not produced;
each produced connection gets one `WriteJSON(msg)`, and on error is closed
and deleted from the registry. -/
def fanOutLoop (writeOk : Conn → Bool) (msg : Message) : List Conn → Hub → Hub
  | [], h => h
  | c :: rest, h =>
    if h.clients.any (fun e => e.1 = c) then
      let h1 := { h with sent := h.sent ++ [(c, msg)] }
      let h2 := if writeOk c then h1
        else unregister c { h1 with closed := h1.closed ++ [c] }
      fanOutLoop writeOk msg rest h2
    else fanOutLoop writeOk msg rest h

/-- Lines 250-258: the fan-out of one message over the registry. -/
def fanOut (writeOk : Conn → Bool) (msg : Message) (h : Hub) : Hub :=
  fanOutLoop writeOk msg h.conns h

/-- One message taken from `broadcast` with the outcomes its processing
meets: of the two statements, and of the write to each connection. -/
structure Delivery where
  msg : Message
  dbOutcome : DbOutcome
  writeOk : Conn → Bool

/-- One iteration of the loop of `handleMessages` (lines 231-258). -/
def hubStep (d : Delivery) (h : Hub) : Hub :=
  fanOut d.writeOk d.msg { h with db := persist d.dbOutcome d.msg h.db }

/-- The loop of `handleMessages` over the messages it dequeues, in order. -/
def handleMessages : List Delivery → Hub → Hub
  | [], h => h
  | d :: ds, h => handleMessages ds (hubStep d h)

/-- What touches the shared state, one atomic action at a time: an iteration
of the hub, or a session adding or removing its registry entry under
`clientsMu`. -/
inductive Event where
  | deliver (d : Delivery)
  | join (c : Conn) (username : String)
  | leave (c : Conn)

/-- Effect of one event. -/
def Event.apply : Event → Hub → Hub
  | .deliver d, h => hubStep d h
  | .join c u, h => register c u h
  | .leave c, h => unregister c h

/-- Effect of a sequence of events. -/
def runEvents : List Event → Hub → Hub
  | [], h => h
  | e :: es, h => runEvents es (e.apply h)

/-- Whether the event removes the registry entry of `c` on the session's side. -/
def Event.leaves (c : Conn) : Event → Bool
  | .leave c' => decide (c' = c)
  | _ => false

/-- Whether the event registers `c`. -/
def Event.joins (c : Conn) : Event → Bool
  | .join c' _ => decide (c' = c)
  | _ => false

/-- Whether the hub's write to `c` succeeds, should the event be a hub
iteration. -/
def Event.writeOkFor (c : Conn) : Event → Bool
  | .deliver d => d.writeOk c
  | _ => true

/-- The messages the hub dequeues along a sequence of events. -/
def dequeued : List Event → List Message
  | [] => []
  | .deliver d :: es => d.msg :: dequeued es
  | _ :: es => dequeued es

/-- The messages the hub has written to connection `c`, in order. -/
def Hub.sentTo (h : Hub) (c : Conn) : List Message :=
  (h.sent.filter (fun e => e.1 = c)).map Prod.snd

/-- The body of the reply of `handleUsers` (lines 195-208): the count and one
entry (username, remote address, local address) per registered connection. -/
def handleUsers (h : Hub) : Nat × List (String × String × String) :=
  let users := h.clients.map (fun e => (e.2, e.1.remoteAddr, e.1.localAddr))
  (users.length, users)

/-! ## Session -/

/-- A decoded JSON object as far as `Message` reads it: the value of each of
the five keys, when present. -/
structure Frame where
  type : Option String
  username : Option String
  content : Option String
  time : Option String
  channel : Option String
  deriving DecidableEq, Repr

/-- Decoding by `conn.ReadJSON(&msg)` into a fresh `Message`: a key absent
from the frame leaves the field at its zero value, the empty string. -/
def readJSON (f : Frame) : Message :=
  ⟨f.type.getD "", f.username.getD "", f.content.getD "", f.time.getD "", f.channel.getD ""⟩

/-- A wall-clock reading. -/
structure Clock where
  hour : Nat
  minute : Nat
  second : Nat
  deriving DecidableEq, Repr

/-- Two decimal digits. -/
def pad2 (n : Nat) : String :=
  String.mk [Nat.digitChar (n / 10 % 10), Nat.digitChar (n % 10)]

/-- The layout `time.Now().Format("15:04:05")`. -/
def formatClock (t : Clock) : String :=
  pad2 t.hour ++ ":" ++ pad2 t.minute ++ ":" ++ pad2 t.second

/-- The display name chosen at the handshake (lines 135-138). -/
def sessionUsername (initMsg : Message) : String :=
  if initMsg.Username = "" then "Anonymous" else initMsg.Username

/-- One pass of the read loop of `handleWebSocket` (lines 177-187) on a frame
that decodes: the message put on `broadcast`. Only `Time` is assigned. -/
def sessionFrame (now : Clock) (f : Frame) : Message :=
  { readJSON f with Time := formatClock now }

/-! ## Sample data -/

/-- Two connections. -/
def connA : Conn := ⟨1, "10.0.0.1:5001", "10.0.0.9:8080"⟩
def connB : Conn := ⟨2, "10.0.0.2:5002", "10.0.0.9:8080"⟩

/-- A hub with an empty store, both connections registered, nothing sent. -/
def hub0 : Hub := ⟨emptyStore, [(connA, "alice"), (connB, "bob")], [], []⟩

/-- Two chat messages on different channels. -/
def msgA : Message := ⟨"chat", "alice", "hi", "10:00:00", "a"⟩
def msgB : Message := ⟨"chat", "bob", "yo", "10:00:01", "b"⟩

/-- A delivery whose statements and writes all succeed. -/
def okDelivery (m : Message) : Delivery := ⟨m, ⟨true, true⟩, fun _ => true⟩

/-- A chat message on channel "eng". -/
def msgEng : Message := ⟨"chat", "carol", "build is green", "10:00:02", "eng"⟩

/-- Two chat messages on "general". -/
def oldMsg : Message := ⟨"chat", "alice", "old", "10:00:00", "general"⟩
def newMsg : Message := ⟨"chat", "bob", "new", "10:00:01", "general"⟩

/-- A queue of 101 chat messages on "general": 100 times `oldMsg`, then
`newMsg`, where the prune after the last insert fails. -/
def staleQueue : List Delivery :=
  List.replicate 100 (okDelivery oldMsg) ++ [⟨newMsg, ⟨true, false⟩, fun _ => true⟩]

/-- A chat message without a channel. -/
def msgNoChannel : Message := ⟨"chat", "dave", "hello", "10:00:03", ""⟩

/-- A hub whose table holds one row of channel "b" (id 1) and 100 rows of
"general" (ids 2 to 101). -/
def fullHub : Hub :=
  ⟨⟨⟨1, "chat", "bob", "yo", "10:00:01", "b"⟩ :: insertedRows 1 (List.replicate 100 oldMsg), 101⟩,
   [(connA, "alice"), (connB, "bob")], [], []⟩

/-- A frame carrying only a content. -/
def frameHi : Frame := ⟨none, none, some "hi", none, none⟩

/-- A clock reading. -/
def noon : Clock := ⟨12, 0, 0⟩

/-! ## Lemmas on the statements, the registry and the fan-out -/

theorem orderByIdAsc_of_sorted {rows : List Row}
    (h : rows.Pairwise (fun a b => a.id < b.id)) : orderByIdAsc rows = rows := by
  unfold orderByIdAsc
  apply List.Sorted.insertionSort_eq
  exact List.Pairwise.imp (fun hab => Nat.le_of_lt hab) h

theorem orderedInsert_desc_of_lt (a : Row) :
    ∀ xs : List Row, (∀ x ∈ xs, a.id < x.id) →
      xs.orderedInsert (fun a b => b.id ≤ a.id) a = xs ++ [a]
  | [], _ => rfl
  | x :: xs, h => by
    have hx : ¬ x.id ≤ a.id := Nat.not_le.mpr (h x (List.mem_cons_self _ _))
    have ih := orderedInsert_desc_of_lt a xs (fun y hy => h y (List.mem_cons_of_mem _ hy))
    simp only [List.orderedInsert, hx, if_false, ih, List.cons_append]

theorem orderByIdDesc_of_sorted :
    ∀ {rows : List Row}, rows.Pairwise (fun a b => a.id < b.id) →
      orderByIdDesc rows = rows.reverse
  | [], _ => rfl
  | a :: l, h => by
    have hl := orderByIdDesc_of_sorted (List.Pairwise.of_cons h)
    unfold orderByIdDesc at hl ⊢
    rw [List.insertionSort, hl, List.reverse_cons]
    apply orderedInsert_desc_of_lt
    intro x hx
    exact List.rel_of_pairwise_cons h (List.mem_reverse.mp hx)

theorem ids_nodup_of_sorted {rows : List Row}
    (h : rows.Pairwise (fun a b => a.id < b.id)) : (rows.map Row.id).Nodup := by
  rw [List.Nodup, List.pairwise_map]
  exact List.Pairwise.imp (fun hab => Nat.ne_of_lt hab) h

theorem filter_mem_ids_of_sublist {S rows : List Row} (hs : S.Sublist rows)
    (hn : (rows.map Row.id).Nodup) :
    rows.filter (fun r => r.id ∈ S.map Row.id) = S := by
  induction hs with
  | slnil => rfl
  | @cons S l a hsl ih =>
    rw [List.map_cons, List.nodup_cons] at hn
    have ha : a.id ∉ S.map Row.id := fun hmem => hn.1 ((hsl.map Row.id).subset hmem)
    rw [List.filter_cons_of_neg (by simpa using ha)]
    exact ih hn.2
  | @cons₂ S l a hsl ih =>
    rw [List.map_cons, List.nodup_cons] at hn
    rw [List.filter_cons_of_pos (by simp)]
    congr 1
    have hc : l.filter (fun r => r.id ∈ (a :: S).map Row.id) =
        l.filter (fun r => r.id ∈ S.map Row.id) := by
      apply List.filter_congr
      intro r hr
      have hne : r.id ≠ a.id := fun he => hn.1 (he ▸ List.mem_map_of_mem Row.id hr)
      simp [hne]
    rw [hc, ih hn.2]

theorem execPrune_rows (channel : String) {s : Store} (h : s.WF) :
    (execPrune channel s).rows =
      (s.rows.filter (fun r => r.channel = channel)).drop
        ((s.rows.filter (fun r => r.channel = channel)).length - 100) := by
  unfold Store.WF at h
  set L := s.rows.filter (fun r => r.channel = channel) with hL
  have hLs : L.Pairwise (fun a b => a.id < b.id) := List.Pairwise.sublist (List.filter_sublist _) h
  have hkeep : pruneKeepIds channel s = ((L.drop (L.length - 100)).map Row.id).reverse := by
    unfold pruneKeepIds
    rw [← hL, orderByIdDesc_of_sorted hLs, ← List.map_reverse, List.take_reverse]
  have hsub : (L.drop (L.length - 100)).Sublist s.rows :=
    (List.drop_sublist _ _).trans (List.filter_sublist _)
  have := filter_mem_ids_of_sublist hsub (ids_nodup_of_sorted h)
  rw [← this]
  simp only [execPrune, hkeep, List.mem_reverse]

theorem foldl_max_ge (rows : List Row) : ∀ acc : Nat,
    acc ≤ rows.foldl (fun acc r => max acc r.id) acc ∧
    ∀ r ∈ rows, r.id ≤ rows.foldl (fun acc r => max acc r.id) acc := by
  induction rows with
  | nil => intro acc; simp
  | cons a l ih =>
    intro acc
    have h1 := ih (max acc a.id)
    simp only [List.foldl_cons, List.mem_cons, forall_eq_or_imp]
    refine ⟨le_trans (le_max_left _ _) h1.1, le_trans (le_max_right _ _) h1.1, h1.2⟩

theorem id_lt_nextId (s : Store) : ∀ r ∈ s.rows, r.id < nextId s := by
  intro r hr
  have := (foldl_max_ge s.rows 0).2 r hr
  unfold nextId maxId
  omega

theorem execInsert_wf (t u c tm ch : String) {s : Store} (h : s.WF) :
    (execInsert t u c tm ch s).WF := by
  unfold Store.WF execInsert at *
  rw [List.pairwise_append]
  refine ⟨h, List.pairwise_singleton _ _, ?_⟩
  intro a ha b hb
  rw [List.mem_singleton] at hb
  subst hb
  exact id_lt_nextId s a ha

theorem execPrune_wf (ch : String) {s : Store} (h : s.WF) : (execPrune ch s).WF := by
  unfold Store.WF execPrune at *
  exact List.Pairwise.sublist (List.filter_sublist _) h

theorem persist_wf (o : DbOutcome) (m : Message) {s : Store} (h : s.WF) :
    (persist o m s).WF := by
  unfold persist
  split
  · have h1 : (if o.insertOk then execInsert m.Typ m.Username m.Content m.Time
        (resolveChannel m.Channel) s else s).WF := by
      split
      · exact execInsert_wf _ _ _ _ _ h
      · exact h
    simp only
    split
    · exact execPrune_wf _ h1
    · exact h1
  · exact h

theorem historyQuery_of_short {s : Store} (h : s.WF) (hl : s.rows.length ≤ 100) :
    historyQuery s = s.rows := by
  unfold historyQuery
  rw [orderByIdAsc_of_sorted h, List.take_of_length_le hl]

/-- After a successful insert followed by a successful prune the table holds
the newest rows of the channel, at most 100, the inserted row last. -/
theorem insert_prune_rows (t u c tm ch : String) {s : Store} (h : s.WF) :
    ∃ older : List Row,
      (execPrune ch (execInsert t u c tm ch s)).rows = older ++ [⟨nextId s, t, u, c, tm, ch⟩] ∧
      older.length < 100 ∧
      older = (s.rows.filter (fun r => r.channel = ch)).drop
        ((s.rows.filter (fun r => r.channel = ch)).length + 1 - 100) := by
  refine ⟨_, ?_, ?_, rfl⟩
  · rw [execPrune_rows ch (execInsert_wf t u c tm ch h)]
    simp only [execInsert, List.filter_append, List.filter_cons, decide_True, if_true,
      List.filter_nil, List.length_append, List.length_singleton]
    rw [List.drop_append_of_le_length (by omega)]
  · rw [List.length_drop]
    omega

theorem any_key_iff (clients : List (Conn × String)) (c : Conn) :
    clients.any (fun e => e.1 = c) = true ↔ c ∈ clients.map Prod.fst := by
  simp [List.any_eq_true]

theorem fanOutLoop_db (w : Conn → Bool) (msg : Message) :
    ∀ (todo : List Conn) (h : Hub), (fanOutLoop w msg todo h).db = h.db
  | [], _ => rfl
  | c :: rest, h => by
    unfold fanOutLoop
    split
    · rw [fanOutLoop_db w msg rest]
      cases w c <;> rfl
    · exact fanOutLoop_db w msg rest h

theorem fanOutLoop_spec (w : Conn → Bool) (msg : Message) :
    ∀ (todo : List Conn) (h : Hub), todo.Nodup → (∀ c ∈ todo, c ∈ h.conns) →
      (fanOutLoop w msg todo h).sent = h.sent ++ todo.map (fun c => (c, msg)) ∧
      (fanOutLoop w msg todo h).closed = h.closed ++ todo.filter (fun c => !w c) ∧
      (fanOutLoop w msg todo h).clients =
        h.clients.filter (fun e => decide (e.1 ∉ todo) || w e.1)
  | [], h, _, _ => by simp [fanOutLoop]
  | c :: rest, h, hnd, hin => by
    have hc : h.clients.any (fun e => e.1 = c) = true :=
      (any_key_iff h.clients c).mpr (hin c (List.mem_cons_self _ _))
    rw [List.nodup_cons] at hnd
    unfold fanOutLoop
    rw [if_pos hc]
    cases hw : w c
    · -- the write fails: the connection is closed and deleted
      have hin2 : ∀ x ∈ rest, x ∈ (unregister c
          { h with sent := h.sent ++ [(c, msg)], closed := h.closed ++ [c] }).conns := by
        intro x hx
        have hxc : x ≠ c := fun he => hnd.1 (he ▸ hx)
        have := hin x (List.mem_cons_of_mem _ hx)
        simp only [Hub.conns, unregister, List.mem_map, List.mem_filter] at this ⊢
        obtain ⟨e, he, rfl⟩ := this
        exact ⟨e, ⟨he, by simpa using hxc⟩, rfl⟩
      obtain ⟨h1, h2, h3⟩ := fanOutLoop_spec w msg rest _ hnd.2 hin2
      simp only [Bool.false_eq_true, if_false]
      refine ⟨?_, ?_, ?_⟩
      · rw [h1]; simp [unregister]
      · rw [h2]; simp [unregister, hw]
      · rw [h3]
        simp only [unregister, List.filter_filter]
        apply List.filter_congr
        intro e _
        by_cases hec : e.1 = c
        · simp [hec, hw]
        · simp [hec]
    · have hin2 : ∀ x ∈ rest, x ∈ ({ h with sent := h.sent ++ [(c, msg)] } : Hub).conns :=
        fun x hx => hin x (List.mem_cons_of_mem _ hx)
      obtain ⟨h1, h2, h3⟩ := fanOutLoop_spec w msg rest _ hnd.2 hin2
      simp only [if_true]
      refine ⟨?_, ?_, ?_⟩
      · rw [h1]; simp
      · rw [h2]; simp [hw]
      · rw [h3]
        apply List.filter_congr
        intro e _
        by_cases hec : e.1 = c
        · simp [hec, hw]
        · simp [hec]

theorem fanOut_spec (w : Conn → Bool) (msg : Message) {h : Hub} (hwf : h.WF) :
    (fanOut w msg h).db = h.db ∧
    (fanOut w msg h).sent = h.sent ++ h.conns.map (fun c => (c, msg)) ∧
    (fanOut w msg h).closed = h.closed ++ h.conns.filter (fun c => !w c) ∧
    (fanOut w msg h).clients = h.clients.filter (fun e => w e.1) := by
  obtain ⟨h1, h2, h3⟩ := fanOutLoop_spec w msg h.conns h hwf (fun _ hc => hc)
  refine ⟨fanOutLoop_db w msg _ h, h1, h2, ?_⟩
  unfold fanOut
  rw [h3]
  apply List.filter_congr
  intro e he
  have : e.1 ∈ h.conns := List.mem_map_of_mem Prod.fst he
  simp [this]

theorem hubStep_db (d : Delivery) (h : Hub) :
    (hubStep d h).db = persist d.dbOutcome d.msg h.db := by
  unfold hubStep fanOut
  rw [fanOutLoop_db]

theorem fanOutLoop_clients_sublist (w : Conn → Bool) (msg : Message) :
    ∀ (todo : List Conn) (h : Hub), (fanOutLoop w msg todo h).clients.Sublist h.clients
  | [], _ => List.Sublist.refl _
  | c :: rest, h => by
    unfold fanOutLoop
    split
    · refine (fanOutLoop_clients_sublist w msg rest _).trans ?_
      cases w c
      · exact List.filter_sublist _
      · exact List.Sublist.refl _
    · exact fanOutLoop_clients_sublist w msg rest h

theorem fanOutLoop_set_db (w : Conn → Bool) (msg : Message) (s : Store) :
    ∀ (todo : List Conn) (h : Hub),
      fanOutLoop w msg todo { h with db := s } = { fanOutLoop w msg todo h with db := s }
  | [], _ => rfl
  | c :: rest, h => by
    unfold fanOutLoop
    simp only
    split
    · cases w c
      · exact fanOutLoop_set_db w msg s rest
          (unregister c { h with sent := h.sent ++ [(c, msg)], closed := h.closed ++ [c] })
      · exact fanOutLoop_set_db w msg s rest { h with sent := h.sent ++ [(c, msg)] }
    · exact fanOutLoop_set_db w msg s rest h

theorem register_wf (c : Conn) (u : String) {h : Hub} (hwf : h.WF) : (register c u h).WF := by
  unfold register
  split
  · next hc =>
    have : (h.clients.map (fun e => if e.1 = c then (c, u) else e)).map Prod.fst =
        h.clients.map Prod.fst := by
      rw [List.map_map]
      apply List.map_congr_left
      intro e _
      by_cases he : e.1 = c <;> simp [he]
    simpa [Hub.WF, Hub.conns, this] using hwf
  · next hc =>
    have hc2 : c ∉ h.clients.map Prod.fst := fun hm => hc ((any_key_iff _ _).mpr hm)
    unfold Hub.WF Hub.conns at *
    simp only [List.map_append, List.map_cons, List.map_nil]
    rw [List.nodup_append]
    refine ⟨hwf, List.nodup_singleton _, ?_⟩
    intro x hx hx2
    rw [List.mem_singleton] at hx2
    exact hc2 (hx2 ▸ hx)

theorem register_conns_mem (c' : Conn) (u : String) (h : Hub) (c : Conn) (hc : c ∈ h.conns) :
    c ∈ (register c' u h).conns := by
  unfold register
  split
  · simp only [Hub.conns, List.map_map] at hc ⊢
    rw [List.mem_map] at hc ⊢
    obtain ⟨e, he, rfl⟩ := hc
    refine ⟨e, he, ?_⟩
    by_cases h1 : e.1 = c' <;> simp [h1]
  · simp only [Hub.conns, List.map_append, List.mem_append] at hc ⊢
    exact Or.inl hc

theorem filter_clients_wf {h : Hub} (hwf : h.WF) (p : Conn × String → Bool) :
    ((h.clients.filter p).map Prod.fst).Nodup :=
  List.Nodup.sublist ((List.filter_sublist _).map Prod.fst) hwf

theorem hubStep_view (d : Delivery) {h : Hub} (hwf : h.WF) :
    (hubStep d h).sent = h.sent ++ h.conns.map (fun c => (c, d.msg)) ∧
    (hubStep d h).closed = h.closed ++ h.conns.filter (fun c => !d.writeOk c) ∧
    (hubStep d h).clients = h.clients.filter (fun e => d.writeOk e.1) := by
  have hwf2 : ({ h with db := persist d.dbOutcome d.msg h.db } : Hub).WF := hwf
  obtain ⟨_, h2, h3, h4⟩ := fanOut_spec d.writeOk d.msg hwf2
  exact ⟨h2, h3, h4⟩

theorem hubStep_wf (d : Delivery) {h : Hub} (hwf : h.WF) : (hubStep d h).WF := by
  unfold Hub.WF Hub.conns
  rw [(hubStep_view d hwf).2.2]
  exact filter_clients_wf hwf _

theorem sentTo_single (c : Conn) (msg : Message) :
    ∀ (conns : List Conn), conns.Nodup → c ∈ conns →
      (((conns.map (fun x => (x, msg))).filter (fun e => e.1 = c)).map Prod.snd) = [msg]
  | [], _, hc => by simp at hc
  | x :: xs, hnd, hc => by
    rw [List.nodup_cons] at hnd
    by_cases hx : x = c
    · subst hx
      have : ((xs.map (fun y => (y, msg))).filter (fun e => e.1 = x)) = [] := by
        rw [List.filter_eq_nil_iff]
        intro e he
        rw [List.mem_map] at he
        obtain ⟨y, hy, rfl⟩ := he
        have : y ≠ x := fun h => hnd.1 (h ▸ hy)
        simpa using this
      simp [this]
    · have hc2 : c ∈ xs := by
        rcases List.mem_cons.mp hc with h | h
        · exact absurd h.symm hx
        · exact h
      have ih := sentTo_single c msg xs hnd.2 hc2
      simpa [hx] using ih

theorem formatClock_ne_empty (t : Clock) : formatClock t ≠ "" := by
  intro h
  have := congrArg String.length h
  simp [formatClock, pad2, String.length_append, String.length] at this

theorem no_join_stays_absent (c : Conn) :
    ∀ (es : List Event) (h : Hub), (∀ e ∈ es, e.joins c = false) → c ∉ h.conns →
      c ∉ (runEvents es h).conns
  | [], _, _, hc => hc
  | e :: es, h, hj, hc => by
    apply no_join_stays_absent c es (e.apply h) (fun e' he' => hj e' (List.mem_cons_of_mem _ he'))
    have hje := hj e (List.mem_cons_self _ _)
    cases e with
    | deliver d =>
      intro hmem
      have hsub : (hubStep d h).clients.Sublist h.clients :=
        fanOutLoop_clients_sublist d.writeOk d.msg _ _
      exact hc ((hsub.map Prod.fst).subset hmem)
    | join c' u =>
      have hne : c' ≠ c := by simpa [Event.joins] using hje
      intro hmem
      simp only [Event.apply, register, Hub.conns] at hmem
      split at hmem
      · rw [List.map_map, List.mem_map] at hmem
        obtain ⟨e, he, hec⟩ := hmem
        by_cases h1 : e.1 = c'
        · simp [h1] at hec
          exact hne hec
        · simp [h1] at hec
          exact hc (hec ▸ List.mem_map_of_mem Prod.fst he)
      · simp only [List.map_append, List.map_cons, List.map_nil, List.mem_append,
          List.mem_singleton] at hmem
        rcases hmem with hmem | hmem
        · exact hc hmem
        · exact hne hmem.symm
    | leave c' =>
      intro hmem
      have hsub : (unregister c' h).clients.Sublist h.clients := List.filter_sublist _
      exact hc ((hsub.map Prod.fst).subset hmem)

theorem unregister_wf (c : Conn) {h : Hub} (hwf : h.WF) : (unregister c h).WF :=
  filter_clients_wf hwf _

theorem event_keeps_registered (c : Conn) (e : Event) {h : Hub} (hwf : h.WF)
    (hc : c ∈ h.conns) (hl : e.leaves c = false) (hw : e.writeOkFor c = true) :
    (e.apply h).WF ∧ c ∈ (e.apply h).conns ∧
    (e.apply h).sentTo c = h.sentTo c ++ dequeued [e] := by
  cases e with
  | deliver d =>
    refine ⟨hubStep_wf d hwf, ?_, ?_⟩
    · simp only [Event.apply, Hub.conns, (hubStep_view d hwf).2.2, List.mem_map,
        List.mem_filter]
      simp only [Hub.conns, List.mem_map] at hc
      obtain ⟨e, he, rfl⟩ := hc
      exact ⟨e, ⟨he, hw⟩, rfl⟩
    · simp only [Event.apply, Hub.sentTo, (hubStep_view d hwf).1, List.filter_append,
        List.map_append, dequeued]
      rw [sentTo_single c d.msg h.conns hwf hc]
  | join c' u =>
    refine ⟨register_wf c' u hwf, register_conns_mem c' u h c hc, ?_⟩
    have : (register c' u h).sent = h.sent := by
      unfold register; split <;> rfl
    simp [Event.apply, Hub.sentTo, this, dequeued]
  | leave c' =>
    have hne : c' ≠ c := by simpa [Event.leaves] using hl
    refine ⟨unregister_wf c' hwf, ?_, ?_⟩
    · simp only [Event.apply, Hub.conns, unregister, List.mem_map, List.mem_filter]
      simp only [Hub.conns, List.mem_map] at hc
      obtain ⟨e, he, rfl⟩ := hc
      exact ⟨e, ⟨he, by simpa using fun h1 => hne h1.symm⟩, rfl⟩
    · simp [Event.apply, Hub.sentTo, unregister, dequeued]

theorem dequeued_cons (e : Event) (es : List Event) :
    dequeued (e :: es) = dequeued [e] ++ dequeued es := by
  cases e <;> simp [dequeued]

theorem fanOutLoop_view (w : Conn → Bool) (msg : Message) (todo : List Conn) (h : Hub)
    (s : Store) :
    (fanOutLoop w msg todo { h with db := s }).clients = (fanOutLoop w msg todo h).clients ∧
    (fanOutLoop w msg todo { h with db := s }).sent = (fanOutLoop w msg todo h).sent ∧
    (fanOutLoop w msg todo { h with db := s }).closed = (fanOutLoop w msg todo h).closed := by
  rw [fanOutLoop_set_db]
  exact ⟨rfl, rfl, rfl⟩

theorem hubStep_view_eq (m : Message) (w : Conn → Bool) (o o' : DbOutcome) (h h' : Hub)
    (h1 : h'.clients = h.clients) (h2 : h'.sent = h.sent) (h3 : h'.closed = h.closed) :
    (hubStep ⟨m, o, w⟩ h').clients = (hubStep ⟨m, o', w⟩ h).clients ∧
    (hubStep ⟨m, o, w⟩ h').sent = (hubStep ⟨m, o', w⟩ h).sent ∧
    (hubStep ⟨m, o, w⟩ h').closed = (hubStep ⟨m, o', w⟩ h).closed := by
  obtain ⟨db, cl, se, clo⟩ := h
  obtain ⟨db', cl', se', clo'⟩ := h'
  simp only at h1 h2 h3
  subst h1 h2 h3
  have a := fanOutLoop_view w m (cl'.map Prod.fst) ⟨db, cl', se', clo'⟩ (persist o m db')
  have b := fanOutLoop_view w m (cl'.map Prod.fst) ⟨db, cl', se', clo'⟩ (persist o' m db)
  exact ⟨a.1.trans b.1.symm, a.2.1.trans b.2.1.symm, a.2.2.trans b.2.2.symm⟩

theorem handleMessages_view_indep :
    ∀ (ds : List Delivery) (g : Delivery → DbOutcome) (h h' : Hub),
      h'.clients = h.clients → h'.sent = h.sent → h'.closed = h.closed →
      (handleMessages (ds.map (fun d => { d with dbOutcome := g d })) h').clients =
        (handleMessages ds h).clients ∧
      (handleMessages (ds.map (fun d => { d with dbOutcome := g d })) h').sent =
        (handleMessages ds h).sent ∧
      (handleMessages (ds.map (fun d => { d with dbOutcome := g d })) h').closed =
        (handleMessages ds h).closed
  | [], _, _, _, h1, h2, h3 => ⟨h1, h2, h3⟩
  | d :: ds, g, h, h', h1, h2, h3 => by
    simp only [List.map_cons, handleMessages]
    obtain ⟨a1, a2, a3⟩ := hubStep_view_eq d.msg d.writeOk (g d) d.dbOutcome h h' h1 h2 h3
    exact handleMessages_view_indep ds g _ _ a1 a2 a3

theorem handleMessages_db : ∀ (ds : List Delivery) (h : Hub),
    (handleMessages ds h).db = ds.foldl (fun s d => persist d.dbOutcome d.msg s) h.db
  | [], _ => rfl
  | d :: ds, h => by
    rw [handleMessages, handleMessages_db ds, hubStep_db, List.foldl_cons]

theorem insertedRows_append : ∀ (a b : List Message) (k : Nat),
    insertedRows k (a ++ b) = insertedRows k a ++ insertedRows (k + a.length) b
  | [], b, k => by simp [insertedRows]
  | m :: a, b, k => by
    have ih := insertedRows_append a b (k + 1)
    rw [show k + 1 + a.length = k + (m :: a).length by simp only [List.length_cons]; omega] at ih
    rw [List.cons_append, insertedRows, insertedRows, ih, List.cons_append]

theorem insertedRows_length : ∀ (msgs : List Message) (k : Nat),
    (insertedRows k msgs).length = msgs.length
  | [], _ => rfl
  | _ :: ms, k => by simp [insertedRows, insertedRows_length ms]

theorem insertedRows_id_bounds : ∀ (msgs : List Message) (k : Nat),
    ∀ r ∈ insertedRows k msgs, k < r.id ∧ r.id ≤ k + msgs.length
  | [], _, r, hr => by simp [insertedRows] at hr
  | m :: ms, k, r, hr => by
    simp only [insertedRows, List.mem_cons] at hr
    rcases hr with rfl | hr
    · simp
    · have := insertedRows_id_bounds ms (k + 1) r hr
      simp only [List.length_cons]
      omega

theorem insertedRows_sorted : ∀ (msgs : List Message) (k : Nat),
    (insertedRows k msgs).Pairwise (fun a b => a.id < b.id)
  | [], _ => List.Pairwise.nil
  | m :: ms, k => by
    simp only [insertedRows, List.pairwise_cons]
    refine ⟨?_, insertedRows_sorted ms (k + 1)⟩
    intro r hr
    exact (insertedRows_id_bounds ms (k + 1) r hr).1

theorem insertedRows_channel (C : String) : ∀ (msgs : List Message) (k : Nat),
    (∀ m ∈ msgs, m.Channel = C) → ∀ r ∈ insertedRows k msgs, r.channel = resolveChannel C
  | [], _, _, r, hr => by simp [insertedRows] at hr
  | m :: ms, k, hm, r, hr => by
    simp only [insertedRows, List.mem_cons] at hr
    rcases hr with rfl | hr
    · simp [hm m (List.mem_cons_self _ _)]
    · exact insertedRows_channel C ms (k + 1) (fun x hx => hm x (List.mem_cons_of_mem _ hx)) r hr

theorem maxId_le_of_forall (rows : List Row) (B : Nat) (h : ∀ r ∈ rows, r.id ≤ B) :
    maxId rows ≤ B := by
  unfold maxId
  suffices H : ∀ acc, acc ≤ B → rows.foldl (fun acc r => max acc r.id) acc ≤ B from
    H 0 (Nat.zero_le _)
  induction rows with
  | nil => intro acc ha; exact ha
  | cons a l ih =>
    intro acc ha
    rw [List.foldl_cons]
    apply ih (fun r hr => h r (List.mem_cons_of_mem _ hr))
    exact max_le ha (h a (List.mem_cons_self _ _))

/-- The table after the hub has stored a run of non-system messages of one
channel, starting from the empty table, every statement succeeding. -/
theorem persist_single_channel (C : String) (msgs : List Message)
    (hm : ∀ m ∈ msgs, m.Typ ≠ "system" ∧ m.Channel = C) :
    (msgs.foldl (fun s m => persist ⟨true, true⟩ m s) emptyStore).rows =
        (insertedRows 0 msgs).drop (msgs.length - 100) ∧
    (msgs.foldl (fun s m => persist ⟨true, true⟩ m s) emptyStore).seq = msgs.length := by
  induction msgs using List.reverseRecOn with
  | nil => exact ⟨rfl, rfl⟩
  | append_singleton msgs m ih =>
    obtain ⟨hrows, hseq⟩ := ih (fun x hx => hm x (List.mem_append_left _ hx))
    obtain ⟨hsys, hch⟩ := hm m (List.mem_append_right _ (List.mem_singleton_self m))
    set s := msgs.foldl (fun s m => persist ⟨true, true⟩ m s) emptyStore with hs
    have hwf : s.WF := by
      unfold Store.WF
      rw [hrows]
      exact List.Pairwise.sublist (List.drop_sublist _ _) (insertedRows_sorted msgs 0)
    have hnext : nextId s = msgs.length + 1 := by
      have : maxId s.rows ≤ msgs.length := by
        apply maxId_le_of_forall
        intro r hr
        rw [hrows] at hr
        have := (insertedRows_id_bounds msgs 0 r (List.mem_of_mem_drop hr)).2
        omega
      unfold nextId
      rw [hseq]
      omega
    have hins : (execInsert m.Typ m.Username m.Content m.Time (resolveChannel m.Channel) s).rows =
        (insertedRows 0 (msgs ++ [m])).drop (msgs.length - 100) := by
      rw [insertedRows_append, List.drop_append_of_le_length
        (by rw [insertedRows_length]; omega)]
      simp only [execInsert, hnext, hrows, insertedRows, Nat.zero_add]
    have hwf1 := execInsert_wf m.Typ m.Username m.Content m.Time (resolveChannel m.Channel) hwf
    have hall : ∀ r ∈ (execInsert m.Typ m.Username m.Content m.Time
        (resolveChannel m.Channel) s).rows, r.channel = resolveChannel m.Channel := by
      intro r hr
      rw [hins] at hr
      rw [hch]
      apply insertedRows_channel C (msgs ++ [m]) 0 _ r (List.mem_of_mem_drop hr)
      intro x hx
      exact (hm x hx).2
    rw [List.foldl_append, List.foldl_cons, List.foldl_nil, ← hs]
    simp only [persist, hsys, ne_eq, not_false_eq_true, if_true]
    refine ⟨?_, ?_⟩
    · rw [execPrune_rows _ hwf1, List.filter_eq_self.mpr (by simpa using hall), hins,
        List.drop_drop, List.length_drop, insertedRows_length, List.length_append,
        List.length_singleton]
      rw [show msgs.length - 100 + (msgs.length + 1 - (msgs.length - 100) - 100) =
        msgs.length + 1 - 100 by omega]
    · simp only [execPrune, execInsert, hnext, List.length_append, List.length_singleton]

theorem foldl_persist_ok : ∀ (ds : List Delivery) (s : Store),
    (∀ d ∈ ds, d.dbOutcome = ⟨true, true⟩) →
    ds.foldl (fun s d => persist d.dbOutcome d.msg s) s =
      (ds.map Delivery.msg).foldl (fun s m => persist ⟨true, true⟩ m s) s
  | [], _, _ => rfl
  | d :: ds, s, h => by
    rw [List.foldl_cons, List.map_cons, List.foldl_cons, h d (List.mem_cons_self _ _)]
    exact foldl_persist_ok ds _ (fun x hx => h x (List.mem_cons_of_mem _ hx))

set_option maxRecDepth 100000 in
theorem staleQueue_db :
    (handleMessages staleQueue hub0).db =
      ⟨insertedRows 0 (List.replicate 100 oldMsg) ++
        [⟨101, "chat", "bob", "new", "10:00:01", "general"⟩], 101⟩ := by
  have hm : ∀ m ∈ List.replicate 100 oldMsg, m.Typ ≠ "system" ∧ m.Channel = "general" := by
    intro m hm
    rw [List.eq_of_mem_replicate hm]
    exact ⟨by decide, rfl⟩
  obtain ⟨h1, h2⟩ := persist_single_channel "general" (List.replicate 100 oldMsg) hm
  have hs : (List.replicate 100 oldMsg).foldl (fun s m => persist ⟨true, true⟩ m s) emptyStore =
      ⟨insertedRows 0 (List.replicate 100 oldMsg), 100⟩ := by
    generalize (List.replicate 100 oldMsg).foldl (fun s m => persist ⟨true, true⟩ m s)
      emptyStore = s at h1 h2
    cases s
    simp only at h1 h2
    subst h1 h2
    rfl
  rw [handleMessages_db]
  unfold staleQueue
  rw [List.foldl_append, foldl_persist_ok (List.replicate 100 (okDelivery oldMsg)) hub0.db (by
    intro d hd
    rw [List.eq_of_mem_replicate hd]
    rfl)]
  rw [List.map_replicate]
  show persist ⟨true, false⟩ newMsg
    ((List.replicate 100 oldMsg).foldl (fun s m => persist ⟨true, true⟩ m s) emptyStore) = _
  rw [hs]
  decide

/-! ## Claims -/

/-- C1 (the code departs from the claim): two messages on different channels,
every statement succeeding. The prune run for channel "b" deletes the row of
channel "a": no row of "a" is left, while one message resolved to "a". -/
theorem retention_lost_across_channels :
    countRows "a" (handleMessages [okDelivery msgA, okDelivery msgB] hub0).db = 0 ∧
    min ([msgA, msgB].filter (fun m => resolveChannel m.Channel = "a")).length 100 = 1 ∧
    (handleMessages [okDelivery msgA, okDelivery msgB] hub0).db.rows =
      [⟨2, "chat", "bob", "yo", "10:00:01", "b"⟩] := by
  decide

/-- C2 (the code departs from the claim): on a table holding one row of
channel "a" and one of channel "b", the prune statement run for "b" removes
the row of "a", which is among the 100 newest of its own channel. -/
theorem prune_removes_other_channel :
    (execPrune "b" ⟨[⟨1, "chat", "alice", "hi", "10:00:00", "a"⟩,
                     ⟨2, "chat", "bob", "yo", "10:00:01", "b"⟩], 2⟩).rows =
      [⟨2, "chat", "bob", "yo", "10:00:01", "b"⟩] := by
  decide

theorem history_contains_resolved (h : Hub) (m : Message) (w : Conn → Bool)
    (hwf : h.db.WF) (hm : m.Typ ≠ "system") :
    ({ m with Channel := resolveChannel m.Channel } : Message) ∈
      historyReplay true (hubStep ⟨m, ⟨true, true⟩, w⟩ h).db := by
  rw [hubStep_db]
  simp only [persist, hm, ne_eq, not_false_eq_true, if_true]
  obtain ⟨older, hrows, hlen, _⟩ :=
    insert_prune_rows m.Typ m.Username m.Content m.Time (resolveChannel m.Channel) hwf
  have hwf2 := execPrune_wf (resolveChannel m.Channel)
    (execInsert_wf m.Typ m.Username m.Content m.Time (resolveChannel m.Channel) hwf)
  have hq := historyQuery_of_short hwf2 (by rw [hrows]; simp; omega)
  simp only [historyReplay, if_true, hq, hrows, List.map_append, List.map_cons, List.map_nil,
    List.mem_append, List.mem_singleton]
  right
  rfl

/-- C3 (counterexample): the hub has processed a chat message with insert and
prune succeeding, and the history query of the session that connects next
fails: nothing is replayed, so the message is not in the replay. -/
theorem failed_history_query_replays_nothing :
    historyReplay false (hubStep ⟨msgA, ⟨true, true⟩, fun _ => true⟩ hub0).db = [] ∧
    (⟨"chat", "alice", "hi", "10:00:00", "a"⟩ : Message) ∉
      historyReplay false (hubStep ⟨msgA, ⟨true, true⟩, fun _ => true⟩ hub0).db ∧
    (hubStep ⟨msgA, ⟨true, true⟩, fun _ => true⟩ hub0).db.rows =
      [⟨1, "chat", "alice", "hi", "10:00:00", "a"⟩] := by
  decide

/-- C3 (amended): after the hub has processed a non-system message with
insert and prune succeeding, a history replay whose query succeeds contains
a message with the type, username, content and time of that message, whose
channel is the message's channel, or "general" when the message's channel is
empty. -/
theorem history_contains_processed_message (h : Hub) (m : Message) (w : Conn → Bool)
    (hwf : h.db.WF) (hm : m.Typ ≠ "system") :
    (⟨m.Typ, m.Username, m.Content, m.Time,
        if m.Channel = "" then "general" else m.Channel⟩ : Message) ∈
      historyReplay true (hubStep ⟨m, ⟨true, true⟩, w⟩ h).db := by
  have key := history_contains_resolved h m w hwf hm
  unfold resolveChannel at key
  exact key

theorem history_contains_processed_message_witness :
    fullHub.db.WF ∧ msgNoChannel.Typ ≠ "system" ∧
    fullHub.db.rows.length = 101 ∧
    (⟨"chat", "dave", "hello", "10:00:03", "general"⟩ : Message) ∈
      historyReplay true (hubStep ⟨msgNoChannel, ⟨true, true⟩, fun _ => true⟩ fullHub).db := by
  have hwf : fullHub.db.WF := by set_option maxRecDepth 100000 in decide
  have hm : msgNoChannel.Typ ≠ "system" := by decide
  have key := history_contains_processed_message fullHub msgNoChannel (fun _ => true) hwf hm
  exact ⟨hwf, hm, rfl, key⟩

/-- C4 (the code departs from the claim): the hub stores 101 messages on
"general", the prune after the last insert failing, so the table holds 101
rows. The history query returns the rows with the ids 1 to 100: 100 messages
are replayed, and the newest one, with the highest id, is not among them. -/
theorem history_replay_omits_newest_row :
    (handleMessages staleQueue hub0).db.rows.length = 101 ∧
    (historyReplay true (handleMessages staleQueue hub0).db).length = 100 ∧
    (historyQuery (handleMessages staleQueue hub0).db).map Row.id = List.range' 1 100 ∧
    newMsg ∉ historyReplay true (handleMessages staleQueue hub0).db := by
  rw [staleQueue_db]
  set_option maxRecDepth 100000 in decide

/-- C5 (counterexample): "alice" sends a frame carrying only the content
"hi". The hub writes to both registered sessions, the sender included, a
message with empty type, username and channel; so the message written to the
other session is not the chat message of "alice" on "general". -/
theorem delivered_frame_not_stamped :
    (hubStep ⟨sessionFrame noon frameHi, ⟨true, true⟩, fun _ => true⟩ hub0).sent =
      [(connA, ⟨"", "", "hi", "12:00:00", ""⟩), (connB, ⟨"", "", "hi", "12:00:00", ""⟩)] ∧
    ¬ ∃ t : String, t ≠ "" ∧
      (hubStep ⟨sessionFrame noon frameHi, ⟨true, true⟩, fun _ => true⟩ hub0).sentTo connB =
        [⟨"chat", "alice", "hi", t, "general"⟩] := by
  refine ⟨by decide, ?_⟩
  rintro ⟨t, _, ht⟩
  have hs : (hubStep ⟨sessionFrame noon frameHi, ⟨true, true⟩, fun _ => true⟩ hub0).sentTo connB =
      [⟨"", "", "hi", "12:00:00", ""⟩] := by decide
  rw [hs] at ht
  simp at ht

/-- C5 (amended): the message a session's frame becomes is the decoded frame
with only the time assigned by the server: type, username, content and
channel are those of the frame, empty when absent, and the time is the
formatted clock, never empty. The hub writes that message once to every
registered session, the sender included. -/
theorem delivered_message_is_frame_with_server_time (h : Hub) (f : Frame) (now : Clock)
    (o : DbOutcome) (w : Conn → Bool) (hwf : h.WF) :
    (hubStep ⟨sessionFrame now f, o, w⟩ h).sent =
      h.sent ++ h.conns.map (fun c => (c, sessionFrame now f)) ∧
    (sessionFrame now f).Typ = f.type.getD "" ∧
    (sessionFrame now f).Username = f.username.getD "" ∧
    (sessionFrame now f).Content = f.content.getD "" ∧
    (sessionFrame now f).Channel = f.channel.getD "" ∧
    (sessionFrame now f).Time = formatClock now ∧
    (sessionFrame now f).Time ≠ "" :=
  ⟨(hubStep_view ⟨sessionFrame now f, o, w⟩ hwf).1, rfl, rfl, rfl, rfl, rfl,
   formatClock_ne_empty now⟩

theorem delivered_message_is_frame_with_server_time_witness :
    hub0.WF ∧
    (hubStep ⟨sessionFrame noon frameHi, ⟨true, true⟩, fun _ => true⟩ hub0).sent =
      hub0.sent ++ hub0.conns.map (fun c => (c, sessionFrame noon frameHi)) ∧
    (sessionFrame noon frameHi).Username = "" ∧
    (sessionFrame noon frameHi).Time = "12:00:00" :=
  have hw : hub0.WF := by unfold Hub.WF; decide
  have h := delivered_message_is_frame_with_server_time hub0 frameHi noon ⟨true, true⟩
    (fun _ => true) hw
  ⟨hw, h.1, by decide, by decide⟩

/-- C6: one fan-out over a registry writes the message once to each
registered connection; the registry afterwards holds exactly the entries
whose write succeeded, the failed connections are the ones closed, and a
failed connection is in no listing of the registry afterwards, as long as it
is not registered anew. -/
theorem fanOut_isolates_failures (w : Conn → Bool) (msg : Message) (h : Hub) (hwf : h.WF) :
    (fanOut w msg h).sent = h.sent ++ h.conns.map (fun c => (c, msg)) ∧
    (fanOut w msg h).clients = h.clients.filter (fun e => w e.1) ∧
    (fanOut w msg h).closed = h.closed ++ h.conns.filter (fun c => !w c) ∧
    (handleUsers (fanOut w msg h)).2 =
      (h.clients.filter (fun e => w e.1)).map (fun e => (e.2, e.1.remoteAddr, e.1.localAddr)) ∧
    ∀ c ∈ h.conns, w c = false →
      ∀ es : List Event, (∀ e ∈ es, e.joins c = false) →
        c ∉ (runEvents es (fanOut w msg h)).conns := by
  obtain ⟨_, h2, h3, h4⟩ := fanOut_spec w msg hwf
  refine ⟨h2, h4, h3, by simp [handleUsers, h4], ?_⟩
  intro c _ hw es hes
  apply no_join_stays_absent c es _ hes
  simp only [Hub.conns, h4, List.mem_map, List.mem_filter, not_exists, not_and]
  rintro e ⟨_, hwe⟩ rfl
  rw [hw] at hwe
  exact Bool.false_ne_true hwe

theorem fanOut_isolates_failures_witness :
    hub0.WF ∧
    (fanOut (fun c => decide (c = connA)) msgA hub0).sent = [(connA, msgA), (connB, msgA)] ∧
    (fanOut (fun c => decide (c = connA)) msgA hub0).clients = [(connA, "alice")] ∧
    (fanOut (fun c => decide (c = connA)) msgA hub0).closed = [connB] ∧
    connB ∉ (runEvents [Event.deliver (okDelivery msgB)]
      (fanOut (fun c => decide (c = connA)) msgA hub0)).conns :=
  have hw : hub0.WF := by unfold Hub.WF; decide
  have h := fanOut_isolates_failures (fun c => decide (c = connA)) msgA hub0 hw
  ⟨hw, h.1, h.2.1, h.2.2.1,
   h.2.2.2.2 connB (by decide) (by decide) [Event.deliver (okDelivery msgB)]
     (by intro e he; rw [List.mem_singleton] at he; subst he; rfl)⟩

/-- C7: along any sequence of hub iterations and registry changes, a
connection that is registered at the start, is not removed by its session,
and whose writes all succeed, is written exactly the dequeued messages, each
once, unmodified and in dequeue order. -/
theorem delivery_order_is_dequeue_order (c : Conn) (es : List Event) (h : Hub)
    (hwf : h.WF) (hc : c ∈ h.conns)
    (hstay : ∀ e ∈ es, e.leaves c = false) (hok : ∀ e ∈ es, e.writeOkFor c = true) :
    (runEvents es h).sentTo c = h.sentTo c ++ dequeued es := by
  induction es generalizing h with
  | nil => simp [runEvents, dequeued]
  | cons e es ih =>
    obtain ⟨h1, h2, h3⟩ := event_keeps_registered c e hwf hc
      (hstay e (List.mem_cons_self _ _)) (hok e (List.mem_cons_self _ _))
    have := ih (e.apply h) h1 h2 (fun e' he' => hstay e' (List.mem_cons_of_mem _ he'))
      (fun e' he' => hok e' (List.mem_cons_of_mem _ he'))
    rw [runEvents, this, h3, dequeued_cons e es, List.append_assoc]

theorem delivery_order_is_dequeue_order_witness :
    hub0.WF ∧ connA ∈ hub0.conns ∧
    (runEvents [Event.deliver ⟨msgA, ⟨true, true⟩, fun c => decide (c = connA)⟩,
        Event.join connB "bob", Event.deliver ⟨msgB, ⟨false, true⟩, fun _ => true⟩,
        Event.leave connB, Event.deliver (okDelivery msgA)] hub0).sentTo connA =
      [msgA, msgB, msgA] :=
  have hw : hub0.WF := by unfold Hub.WF; decide
  ⟨hw, by decide,
   delivery_order_is_dequeue_order connA _ hub0 hw (by decide)
     (by intro e he; simp only [List.mem_cons, List.mem_singleton, List.not_mem_nil, or_false] at he
         rcases he with rfl | rfl | rfl | rfl | rfl <;> decide)
     (by intro e he; simp only [List.mem_cons, List.mem_singleton, List.not_mem_nil, or_false] at he
         rcases he with rfl | rfl | rfl | rfl | rfl <;> decide)⟩

/-- C8: whatever the outcome of the insert (and of the prune), the hub writes
the same message to the same connections, closes the same connections and
leaves the same registry; and it does so for the rest of the queue as well,
so a failed insert stops nothing. -/
theorem failed_insert_same_delivery (m : Message) (w : Conn → Bool) (pruneOk : Bool)
    (ds : List Delivery) (h : Hub) :
    (hubStep ⟨m, ⟨false, pruneOk⟩, w⟩ h).sent = (hubStep ⟨m, ⟨true, pruneOk⟩, w⟩ h).sent ∧
    (hubStep ⟨m, ⟨false, pruneOk⟩, w⟩ h).clients = (hubStep ⟨m, ⟨true, pruneOk⟩, w⟩ h).clients ∧
    (hubStep ⟨m, ⟨false, pruneOk⟩, w⟩ h).closed = (hubStep ⟨m, ⟨true, pruneOk⟩, w⟩ h).closed ∧
    (handleMessages (⟨m, ⟨false, pruneOk⟩, w⟩ :: ds) h).sent =
      (handleMessages (⟨m, ⟨true, pruneOk⟩, w⟩ :: ds) h).sent ∧
    (handleMessages (⟨m, ⟨false, pruneOk⟩, w⟩ :: ds) h).clients =
      (handleMessages (⟨m, ⟨true, pruneOk⟩, w⟩ :: ds) h).clients ∧
    (∀ g : Delivery → DbOutcome,
      (handleMessages (ds.map (fun d => { d with dbOutcome := g d })) h).sent =
        (handleMessages ds h).sent) := by
  have one := hubStep_view_eq m w ⟨false, pruneOk⟩ ⟨true, pruneOk⟩ h h rfl rfl rfl
  have rest := handleMessages_view_indep ds (fun d => d.dbOutcome) _ _ one.1 one.2.1 one.2.2
  have hid : ds.map (fun d => ({ d with dbOutcome := d.dbOutcome } : Delivery)) = ds := by
    simp
  rw [hid] at rest
  exact ⟨one.2.1, one.1, one.2.2, rest.2.1, rest.1,
    fun g => (handleMessages_view_indep ds g h h rfl rfl rfl).2.1⟩

/-- C9 (the code departs from the claim): two searches that differ in the
substring, or in the channel, send statements with different texts and bind
no parameter; a quote in the channel value ends the SQL string literal it was
spliced into. -/
theorem search_statement_text_depends_on_input :
    handleSearch "GET" "foo" "" = .ok
      ⟨"SELECT id, username, content, time FROM messages WHERE channel = 'general' AND content LIKE '%foo%' ORDER BY id DESC LIMIT 10", []⟩ ∧
    handleSearch "GET" "bar" "eng" = .ok
      ⟨"SELECT id, username, content, time FROM messages WHERE channel = 'eng' AND content LIKE '%bar%' ORDER BY id DESC LIMIT 10", []⟩ ∧
    (searchStatement "general" "foo").text ≠ (searchStatement "general" "bar").text ∧
    (searchStatement "general" "foo").text ≠ (searchStatement "eng" "foo").text ∧
    handleSearch "GET" "a" "x' OR 'y' = 'y" = .ok
      ⟨"SELECT id, username, content, time FROM messages WHERE channel = 'x' OR 'y' = 'y' AND content LIKE '%a%' ORDER BY id DESC LIMIT 10", []⟩ := by
  refine ⟨rfl, rfl, by decide, by decide, rfl⟩

end Vulnsock
